import Mathlib

/-!
Shallow embedding of the Soroban events-registry contract
(src/contracts/events/src/lib.rs) and proofs about its seven public
operations.

The contract's persistent state is two storage entries: a `u32` counter
(key "event_counter", default 0) and a `Map<u32, Event>` (key "events",
default empty).  A Soroban `Map` is an ordered map sorted by key; we embed
it as a key-sorted association list.  `u32` values are embedded as `Nat`;
the only arithmetic the contract performs on them is the unguarded
`counter + 1` in `create_event`, which we embed with an explicit
`% 2^32` (Rust release-profile overflow semantics; the source has no
overflow check).  `u64` dates are embedded as `Nat` (no arithmetic is
performed on them).  `Symbol` values are embedded as `String`.
-/

namespace EventsContract

/-- Status enum from the contract: `Active` or `Completed`. -/
inductive Status where
  | Active
  | Completed
deriving DecidableEq

/-- The `Event` record stored in the contract's map. -/
structure Event where
  event_id : Nat
  name : String
  description : String
  start_date : Nat
  end_date : Nat
  status : Status
deriving DecidableEq

/-- Embedding of Soroban `Map<u32, Event>`: a key-sorted association list. -/
abbrev EventMap := List (Nat × Event)

/-- Soroban `Map.set`: insert or replace, keeping the list sorted by key. -/
def mapSet (k : Nat) (v : Event) : EventMap → EventMap
  | [] => [(k, v)]
  | (a, b) :: rest =>
    if k < a then (k, v) :: (a, b) :: rest
    else if k = a then (k, v) :: rest
    else (a, b) :: mapSet k v rest

/-- Soroban `Map.get`: lookup by key. -/
def mapGet (k : Nat) : EventMap → Option Event
  | [] => none
  | (a, b) :: rest => if k = a then some b else mapGet k rest

/-- Soroban `Map.remove`: drop the entry with the given key, if present. -/
def mapRemove (k : Nat) : EventMap → EventMap
  | [] => []
  | (a, b) :: rest => if k = a then rest else (a, b) :: mapRemove k rest

/-- Soroban `Map.values`: the values in map-iteration order. -/
def mapValues (m : EventMap) : List Event :=
  m.map Prod.snd

/-- Modulus of `u32` arithmetic. -/
def U32MOD : Nat := 4294967296

/-- The registry's persistent state: the "events" map entry and the
"event_counter" entry, with their absent-defaults already applied
(empty map, 0). -/
structure RegistryState where
  events : EventMap
  counter : Nat
deriving DecidableEq

/-- The implicit initial state: both storage entries absent, so the
`unwrap_or` defaults apply. -/
def initState : RegistryState := { events := [], counter := 0 }

/-- Embedding of `create_event`: computes `event_counter = counter + 1`
(u32, unguarded, hence mod 2^32), builds an Active event whose
`event_id` is the new counter, stores it under that key, persists the
map and the new counter, and returns the new counter. -/
def create_event (s : RegistryState) (name description : String)
    (start_date end_date : Nat) : Nat × RegistryState :=
  let event_counter := (s.counter + 1) % U32MOD
  let new_event : Event :=
    { event_id := event_counter, name := name, description := description,
      start_date := start_date, end_date := end_date, status := Status.Active }
  (event_counter,
    { events := mapSet event_counter new_event s.events, counter := event_counter })

/-- Embedding of `read_event`: pure lookup in the persisted map. -/
def read_event (s : RegistryState) (event_id : Nat) : Option Event :=
  mapGet event_id s.events

/-- Embedding of `update_event`: if the id is present, replace every field
except `event_id` and persist; otherwise do nothing. -/
def update_event (s : RegistryState) (event_id : Nat) (name description : String)
    (start_date end_date : Nat) (status : Status) : RegistryState :=
  match mapGet event_id s.events with
  | some event =>
      let event2 : Event :=
        { event with
          name := name,
          description := description,
          start_date := start_date,
          end_date := end_date,
          status := status }
      { s with events := mapSet event_id event2 s.events }
  | none => s

/-- Embedding of `delete_event`: remove the key (no-op when absent) and
persist the map; the counter entry is not touched. -/
def delete_event (s : RegistryState) (event_id : Nat) : RegistryState :=
  { s with events := mapRemove event_id s.events }

/-- Embedding of `list_events`: push every value of the map, in iteration
order, onto a fresh vector. -/
def list_events (s : RegistryState) : List Event :=
  mapValues s.events

/-- Embedding of `get_event_count`: the persisted counter (default 0). -/
def get_event_count (s : RegistryState) : Nat :=
  s.counter

/-- Embedding of `get_event_by_index`: bounds-check `index < counter`,
then look up key `index + 1` directly. -/
def get_event_by_index (s : RegistryState) (index : Nat) : Option Event :=
  if index < s.counter then mapGet (index + 1) s.events else none

/-- States reachable from the initial state by the seven public
operations.  `read_event`, `list_events`, `get_event_count` and
`get_event_by_index` do not modify the state, so only the three mutating
operations appear as steps. -/
inductive Reachable : RegistryState → Prop where
  | init : Reachable initState
  | create (s : RegistryState) (n d : String) (sd ed : Nat) :
      Reachable s → Reachable (create_event s n d sd ed).2
  | update (s : RegistryState) (id : Nat) (n d : String) (sd ed : Nat) (st : Status) :
      Reachable s → Reachable (update_event s id n d sd ed st)
  | delete (s : RegistryState) (id : Nat) :
      Reachable s → Reachable (delete_event s id)

/-- Reachability restricted to runs in which no create is issued at the
`u32` boundary, i.e. the counter never wraps. -/
inductive ReachableNoWrap : RegistryState → Prop where
  | init : ReachableNoWrap initState
  | create (s : RegistryState) (n d : String) (sd ed : Nat) :
      ReachableNoWrap s → s.counter + 1 < U32MOD →
      ReachableNoWrap (create_event s n d sd ed).2
  | update (s : RegistryState) (id : Nat) (n d : String) (sd ed : Nat) (st : Status) :
      ReachableNoWrap s → ReachableNoWrap (update_event s id n d sd ed st)
  | delete (s : RegistryState) (id : Nat) :
      ReachableNoWrap s → ReachableNoWrap (delete_event s id)

/-- Keys of the association list are strictly increasing (the Soroban map
representation invariant). -/
def KeysSorted (m : EventMap) : Prop :=
  m.Pairwise (fun p q => p.1 < q.1)

/-- Every stored event's `event_id` field equals its key. -/
def KeysMatch (m : EventMap) : Prop :=
  ∀ p ∈ m, p.2.event_id = p.1

theorem mapGet_mapSet_self (k : Nat) (v : Event) (m : EventMap) :
    mapGet k (mapSet k v m) = some v := by
  induction m with
  | nil => simp [mapSet, mapGet]
  | cons p rest ih =>
    obtain ⟨a, b⟩ := p
    by_cases h1 : k < a
    · simp [mapSet, h1, mapGet]
    · by_cases h2 : k = a
      · simp [mapSet, h1, h2, mapGet]
      · simp [mapSet, h1, h2, mapGet, ih]

theorem mapGet_mapSet_ne (k j : Nat) (v : Event) (m : EventMap) (h : k ≠ j) :
    mapGet k (mapSet j v m) = mapGet k m := by
  induction m with
  | nil => simp [mapSet, mapGet, h]
  | cons p rest ih =>
    obtain ⟨a, b⟩ := p
    by_cases h1 : j < a
    · simp [mapSet, h1, mapGet, h]
    · by_cases h2 : j = a
      · subst h2
        simp [mapSet, h1, mapGet, h]
      · by_cases h3 : k = a
        · simp [mapSet, h1, h2, mapGet, h3]
        · simp [mapSet, h1, h2, mapGet, h3, ih]

theorem mapGet_some_mem (k : Nat) (v : Event) (m : EventMap)
    (h : mapGet k m = some v) : (k, v) ∈ m := by
  induction m with
  | nil => simp [mapGet] at h
  | cons p rest ih =>
    obtain ⟨a, b⟩ := p
    by_cases h1 : k = a
    · subst h1
      simp [mapGet] at h
      simp [h]
    · simp [mapGet, h1] at h
      simp [ih h]

theorem mem_mapSet (p : Nat × Event) (k : Nat) (v : Event) (m : EventMap)
    (h : p ∈ mapSet k v m) : p = (k, v) ∨ p ∈ m := by
  induction m with
  | nil => simp [mapSet] at h; simp [h]
  | cons q rest ih =>
    obtain ⟨a, b⟩ := q
    by_cases h1 : k < a
    · simp [mapSet, h1] at h
      rcases h with h | h | h <;> simp [h]
    · by_cases h2 : k = a
      · subst h2
        simp [mapSet, h1] at h
        rcases h with h | h <;> simp [h]
      · simp [mapSet, h1, h2] at h
        rcases h with h | h
        · simp [h]
        · rcases ih h with h3 | h3 <;> simp [h3]

theorem mem_mapRemove (p : Nat × Event) (k : Nat) (m : EventMap)
    (h : p ∈ mapRemove k m) : p ∈ m := by
  induction m with
  | nil => simp [mapRemove] at h
  | cons q rest ih =>
    obtain ⟨a, b⟩ := q
    by_cases h1 : k = a
    · simp [mapRemove, h1] at h
      simp [h]
    · simp [mapRemove, h1] at h
      rcases h with h | h
      · simp [h]
      · simp [ih h]

theorem mapGet_mapRemove_ne (k j : Nat) (m : EventMap) (h : k ≠ j) :
    mapGet k (mapRemove j m) = mapGet k m := by
  induction m with
  | nil => simp [mapRemove]
  | cons p rest ih =>
    obtain ⟨a, b⟩ := p
    by_cases h1 : j = a
    · subst h1
      simp [mapRemove, mapGet, h]
    · by_cases h2 : k = a
      · simp [mapRemove, h1, mapGet, h2]
      · simp [mapRemove, h1, mapGet, h2, ih]

theorem mapGet_none_of_keys_ne (k : Nat) (m : EventMap)
    (h : ∀ p ∈ m, k ≠ p.1) : mapGet k m = none := by
  induction m with
  | nil => simp [mapGet]
  | cons p rest ih =>
    obtain ⟨a, b⟩ := p
    have ha : k ≠ a := h (a, b) (by simp)
    simp [mapGet, ha]
    exact ih fun q hq => h q (by simp [hq])

theorem mapRemove_sublist (k : Nat) (m : EventMap) :
    (mapRemove k m).Sublist m := by
  induction m with
  | nil => simp [mapRemove]
  | cons p rest ih =>
    obtain ⟨a, b⟩ := p
    by_cases h1 : k = a
    · simp only [mapRemove, if_pos h1]
      exact List.sublist_cons_self (a, b) rest
    · simpa [mapRemove, h1] using ih.cons₂ (a, b)

theorem keysSorted_mapRemove (k : Nat) (m : EventMap) (h : KeysSorted m) :
    KeysSorted (mapRemove k m) :=
  h.sublist (mapRemove_sublist k m)

theorem mapGet_mapRemove_self (k : Nat) (m : EventMap) (h : KeysSorted m) :
    mapGet k (mapRemove k m) = none := by
  induction m with
  | nil => simp [mapRemove, mapGet]
  | cons p rest ih =>
    obtain ⟨a, b⟩ := p
    rw [KeysSorted, List.pairwise_cons] at h
    by_cases h1 : k = a
    · subst h1
      simp only [mapRemove, if_pos rfl]
      exact mapGet_none_of_keys_ne k rest fun q hq => Nat.ne_of_lt (h.1 q hq)
    · simp [mapRemove, h1, mapGet, ih h.2]

theorem mem_mapGet (k : Nat) (v : Event) (m : EventMap)
    (hs : KeysSorted m) (h : (k, v) ∈ m) : mapGet k m = some v := by
  induction m with
  | nil => simp at h
  | cons p rest ih =>
    obtain ⟨a, b⟩ := p
    rw [KeysSorted, List.pairwise_cons] at hs
    rcases List.mem_cons.mp h with h1 | h1
    · rw [Prod.mk.injEq] at h1
      simp [mapGet, h1.1, h1.2]
    · by_cases h2 : k = a
      · subst h2
        exact absurd (hs.1 (k, v) h1) (by simp)
      · simp [mapGet, h2, ih hs.2 h1]

theorem mapRemove_of_absent (k : Nat) (m : EventMap) (h : mapGet k m = none) :
    mapRemove k m = m := by
  induction m with
  | nil => simp [mapRemove]
  | cons p rest ih =>
    obtain ⟨a, b⟩ := p
    by_cases h1 : k = a
    · simp [mapGet, h1] at h
    · simp [mapGet, h1] at h
      simp [mapRemove, h1, ih h]

theorem keysSorted_mapSet (k : Nat) (v : Event) (m : EventMap) (h : KeysSorted m) :
    KeysSorted (mapSet k v m) := by
  induction m with
  | nil => simp [mapSet, KeysSorted]
  | cons p rest ih =>
    obtain ⟨a, b⟩ := p
    rw [KeysSorted, List.pairwise_cons] at h
    by_cases h1 : k < a
    · rw [KeysSorted, show mapSet k v ((a, b) :: rest) = (k, v) :: (a, b) :: rest by
        simp [mapSet, h1]]
      refine List.Pairwise.cons ?_ (List.Pairwise.cons h.1 h.2)
      intro q hq
      rcases List.mem_cons.mp hq with h2 | h2
      · simp [h2, h1]
      · exact Nat.lt_trans h1 (h.1 q h2)
    · by_cases h2 : k = a
      · subst h2
        rw [KeysSorted, show mapSet k v ((k, b) :: rest) = (k, v) :: rest by
          simp [mapSet, h1]]
        exact List.Pairwise.cons h.1 h.2
      · rw [KeysSorted, show mapSet k v ((a, b) :: rest) = (a, b) :: mapSet k v rest by
          simp [mapSet, h1, h2]]
        refine List.Pairwise.cons ?_ (ih h.2)
        intro q hq
        rcases mem_mapSet q k v rest hq with h3 | h3
        · have : a < k := by omega
          simp [h3, this]
        · exact h.1 q h3

theorem mem_mapValues (e : Event) (m : EventMap) :
    e ∈ mapValues m ↔ ∃ k, (k, e) ∈ m := by
  constructor
  · intro h
    rcases List.mem_map.mp h with ⟨p, hp, he⟩
    exact ⟨p.1, by simpa [← he] using hp⟩
  · rintro ⟨k, hk⟩
    exact List.mem_map.mpr ⟨(k, e), hk, rfl⟩

/-- Representation invariant maintained by every reachable state: the map's
keys are strictly sorted and each stored event's `event_id` equals its key. -/
def WFState (s : RegistryState) : Prop :=
  KeysSorted s.events ∧ KeysMatch s.events

theorem reachable_wf (s : RegistryState) (h : Reachable s) : WFState s := by
  induction h with
  | init =>
    exact ⟨List.Pairwise.nil, fun p hp => absurd hp (List.not_mem_nil p)⟩
  | create s n d sd ed hr ih =>
    obtain ⟨ihs, ihm⟩ := ih
    simp only [create_event]
    refine ⟨keysSorted_mapSet _ _ _ ihs, fun p hp => ?_⟩
    rcases mem_mapSet p _ _ _ hp with h1 | h1
    · simp [h1]
    · exact ihm p h1
  | update s id n d sd ed st hr ih =>
    obtain ⟨ihs, ihm⟩ := ih
    cases hg : mapGet id s.events with
    | none => simpa [update_event, hg] using ⟨ihs, ihm⟩
    | some e =>
      have hid : e.event_id = id := ihm (id, e) (mapGet_some_mem id e s.events hg)
      simp only [update_event, hg]
      refine ⟨keysSorted_mapSet _ _ _ ihs, fun p hp => ?_⟩
      rcases mem_mapSet p _ _ _ hp with h1 | h1
      · simp [h1, hid]
      · exact ihm p h1
  | delete s id hr ih =>
    obtain ⟨ihs, ihm⟩ := ih
    exact ⟨keysSorted_mapRemove _ _ ihs, fun p hp =>
      ihm p (mem_mapRemove p id s.events hp)⟩

theorem reachableNoWrap_bounds (s : RegistryState) (h : ReachableNoWrap s) :
    ∀ p ∈ s.events, 1 ≤ p.1 ∧ p.1 ≤ s.counter := by
  induction h with
  | init =>
    intro p hp
    exact absurd hp (List.not_mem_nil p)
  | create s n d sd ed hr hlt ih =>
    intro p hp
    have hc : (s.counter + 1) % U32MOD = s.counter + 1 := Nat.mod_eq_of_lt hlt
    simp only [create_event, hc] at hp ⊢
    rcases mem_mapSet p _ _ _ hp with h1 | h1
    · simp [h1]
    · have := ih p h1
      omega
  | update s id n d sd ed st hr ih =>
    intro p hp
    cases hg : mapGet id s.events with
    | none =>
      simp only [update_event, hg] at hp ⊢
      exact ih p hp
    | some e =>
      simp only [update_event, hg] at hp ⊢
      rcases mem_mapSet p _ _ _ hp with h1 | h1
      · have := ih (id, e) (mapGet_some_mem id e s.events hg)
        simp only [h1]
        exact this
      · exact ih p h1
  | delete s id hr ih =>
    intro p hp
    exact ih p (mem_mapRemove p id s.events hp)

/-- A fixed argument tuple for runs where the arguments are irrelevant. -/
def constArgs : Nat → String × String × Nat × Nat :=
  fun _ => ("a", "b", 0, 0)

/-- The registry state after `n` consecutive `create_event` calls from the
initial state, the `i`-th call taking the argument tuple `args i`. -/
def createRun (args : Nat → String × String × Nat × Nat) : Nat → RegistryState
  | 0 => initState
  | n + 1 =>
    (create_event (createRun args n) (args n).1 (args n).2.1
      (args n).2.2.1 (args n).2.2.2).2

/-- The event ID returned by call number `k + 1` in such a run. -/
def callId (args : Nat → String × String × Nat × Nat) (k : Nat) : Nat :=
  (create_event (createRun args k) (args k).1 (args k).2.1
    (args k).2.2.1 (args k).2.2.2).1

theorem createRun_counter (args : Nat → String × String × Nat × Nat) (n : Nat) :
    (createRun args n).counter = n % U32MOD := by
  induction n with
  | zero => simp [createRun, initState]
  | succ n ih =>
    show ((createRun args n).counter + 1) % U32MOD = (n + 1) % U32MOD
    rw [ih, U32MOD]
    omega

theorem createRun_reachable (args : Nat → String × String × Nat × Nat) (n : Nat) :
    Reachable (createRun args n) := by
  induction n with
  | zero => exact Reachable.init
  | succ n ih => exact Reachable.create _ _ _ _ _ ih

theorem create_event_counter (s : RegistryState) (n d : String) (sd ed : Nat) :
    (create_event s n d sd ed).2.counter = (s.counter + 1) % U32MOD :=
  rfl

theorem create_event_fst (s : RegistryState) (n d : String) (sd ed : Nat) :
    (create_event s n d sd ed).1 = (s.counter + 1) % U32MOD :=
  rfl

theorem callId_eq (args : Nat → String × String × Nat × Nat) (k : Nat) :
    callId args k = (k + 1) % U32MOD := by
  rw [callId, create_event_fst, createRun_counter, U32MOD]
  omega

/-- The state after three `create_event` calls from the initial state. -/
def threeCreated : RegistryState :=
  createRun constArgs 3

/-- The state after two creates followed by deletion of event 1. -/
def twoCreatedFirstDeleted : RegistryState :=
  delete_event (createRun constArgs 2) 1

/-- Claim C1: for every reachable registry state and every index `k`,
`get_event_by_index k` returns `none` when `k ≥ counter`, and otherwise
returns exactly what `read_event (k+1)` returns: the stored record when
ID `k+1` is present, and `none` when it has been deleted, even though
`k < get_event_count`.  Position is a direct alias for ID-1. -/
theorem C1_index_is_id_minus_one_alias (s : RegistryState) (_h : Reachable s) (k : Nat) :
    get_event_by_index s k =
      if k < get_event_count s then read_event s (k + 1) else none :=
  rfl

theorem C1_index_alias_witness :
    get_event_by_index twoCreatedFirstDeleted 0 =
      if 0 < get_event_count twoCreatedFirstDeleted
      then read_event twoCreatedFirstDeleted 1 else none :=
  C1_index_is_id_minus_one_alias twoCreatedFirstDeleted
    (Reachable.delete _ 1 (createRun_reachable constArgs 2)) 0

/-- Claim C4: for every state and all arguments, `create_event` followed by
`read_event` of the returned id yields exactly the created record: the
given fields, `event_id` equal to the returned id, and status `Active`;
no validation restricts the accepted dates or strings (the statement is
universally quantified over all of them, including `end_date < start_date`). -/
theorem C4_create_read_roundtrip (s : RegistryState) (n d : String) (sd ed : Nat) :
    read_event (create_event s n d sd ed).2 (create_event s n d sd ed).1 =
      some { event_id := (create_event s n d sd ed).1,
             name := n,
             description := d,
             start_date := sd,
             end_date := ed,
             status := Status.Active } := by
  simp [read_event, create_event, mapGet_mapSet_self]

/-- Claim C5: for every reachable state and every id present in the events
map, after `update_event id n d sd ed st` the lookup `read_event id`
returns the record with all the new fields while `event_id` still equals
`id`; in particular the record remains present. -/
theorem C5_update_present_overwrites (s : RegistryState) (h : Reachable s)
    (id : Nat) (e : Event) (hp : read_event s id = some e)
    (n d : String) (sd ed : Nat) (st : Status) :
    read_event (update_event s id n d sd ed st) id =
      some { event_id := id,
             name := n,
             description := d,
             start_date := sd,
             end_date := ed,
             status := st } := by
  have hm : mapGet id s.events = some e := hp
  have hid : e.event_id = id :=
    (reachable_wf s h).2 (id, e) (mapGet_some_mem id e s.events hm)
  simp [update_event, hm, read_event, mapGet_mapSet_self, hid]

theorem C5_update_witness :
    read_event (update_event threeCreated 1 "x" "y" 3 4 Status.Completed) 1 =
      some { event_id := 1,
             name := "x",
             description := "y",
             start_date := 3,
             end_date := 4,
             status := Status.Completed } :=
  C5_update_present_overwrites threeCreated (createRun_reachable constArgs 3) 1
    { event_id := 1, name := "a", description := "b", start_date := 0, end_date := 0,
      status := Status.Active }
    (by decide) "x" "y" 3 4 Status.Completed

/-- Claim C6: for every state and every id absent from the events map,
`update_event` is a silent no-op: the entire registry state is unchanged,
so in particular `get_event_count` and `list_events` give the same results
before and after the call. -/
theorem C6_update_absent_is_noop (s : RegistryState) (id : Nat)
    (n d : String) (sd ed : Nat) (st : Status)
    (h : read_event s id = none) :
    update_event s id n d sd ed st = s ∧
    get_event_count (update_event s id n d sd ed st) = get_event_count s ∧
    list_events (update_event s id n d sd ed st) = list_events s := by
  have hm : mapGet id s.events = none := h
  have he : update_event s id n d sd ed st = s := by
    simp [update_event, hm]
  exact ⟨he, by rw [he], by rw [he]⟩

theorem C6_update_noop_witness :
    update_event threeCreated 9 "x" "y" 3 4 Status.Completed = threeCreated ∧
    get_event_count (update_event threeCreated 9 "x" "y" 3 4 Status.Completed) =
      get_event_count threeCreated ∧
    list_events (update_event threeCreated 9 "x" "y" 3 4 Status.Completed) =
      list_events threeCreated :=
  C6_update_absent_is_noop threeCreated 9 "x" "y" 3 4 Status.Completed (by decide)

/-- Claim C10: `update_event` on one id modifies only that map entry and
`delete_event` removes only that entry: for every key `k ≠ id`, the record
stored under `k` is unchanged by either call, and the counter is unchanged
by both. -/
theorem C10_update_delete_frame (s : RegistryState) (id k : Nat) (hk : k ≠ id)
    (n d : String) (sd ed : Nat) (st : Status) :
    read_event (update_event s id n d sd ed st) k = read_event s k ∧
    get_event_count (update_event s id n d sd ed st) = get_event_count s ∧
    read_event (delete_event s id) k = read_event s k ∧
    get_event_count (delete_event s id) = get_event_count s := by
  refine ⟨?_, ?_, mapGet_mapRemove_ne k id s.events hk, rfl⟩
  · cases hg : mapGet id s.events with
    | none => simp [update_event, hg]
    | some e =>
      simp [update_event, hg, read_event, mapGet_mapSet_ne k id _ s.events hk]
  · cases hg : mapGet id s.events with
    | none => simp [update_event, hg]
    | some e => simp [update_event, hg, get_event_count]

theorem C10_frame_witness :
    read_event (update_event threeCreated 1 "x" "y" 7 8 Status.Completed) 2 =
      read_event threeCreated 2 ∧
    get_event_count (update_event threeCreated 1 "x" "y" 7 8 Status.Completed) =
      get_event_count threeCreated ∧
    read_event (delete_event threeCreated 1) 2 = read_event threeCreated 2 ∧
    get_event_count (delete_event threeCreated 1) = get_event_count threeCreated :=
  C10_update_delete_frame threeCreated 1 2 (by decide) "x" "y" 7 8 Status.Completed

/-- Claim C7: after `delete_event id` on a reachable state, `read_event id`
returns `none`, no record with that id appears in `list_events`, and
`get_event_count` is unchanged; concretely, after creating 3 events and
deleting one, the count is 3 while the listing has length 2; and deleting
an absent id leaves the map's contents unchanged. -/
theorem C7_delete_removes_but_keeps_count :
    (∀ s, Reachable s → ∀ id,
      read_event (delete_event s id) id = none ∧
      (∀ e ∈ list_events (delete_event s id), e.event_id ≠ id) ∧
      get_event_count (delete_event s id) = get_event_count s) ∧
    (get_event_count (delete_event threeCreated 1) = 3 ∧
      (list_events (delete_event threeCreated 1)).length = 2) ∧
    (∀ s id, read_event s id = none → (delete_event s id).events = s.events) := by
  refine ⟨?_, ⟨by decide, by decide⟩, fun s id h => mapRemove_of_absent id s.events h⟩
  intro s h id
  obtain ⟨hs, hm⟩ := reachable_wf s h
  refine ⟨mapGet_mapRemove_self id s.events hs, ?_, rfl⟩
  intro e he heq
  rcases (mem_mapValues e (mapRemove id s.events)).mp he with ⟨k, hk⟩
  have hk1 : e.event_id = k := hm (k, e) (mem_mapRemove (k, e) id s.events hk)
  have hk2 : k = id := by rw [← hk1, heq]
  subst hk2
  have : mapGet k (mapRemove k s.events) = some e :=
    mem_mapGet k e (mapRemove k s.events) (keysSorted_mapRemove k s.events hs) hk
  rw [mapGet_mapRemove_self k s.events hs] at this
  exact Option.noConfusion this

theorem C7_delete_witness :
    read_event (delete_event threeCreated 1) 1 = none ∧
    get_event_count (delete_event threeCreated 1) = get_event_count threeCreated ∧
    (delete_event initState 9).events = initState.events :=
  ⟨(C7_delete_removes_but_keeps_count.1 threeCreated
      (createRun_reachable constArgs 3) 1).1,
   (C7_delete_removes_but_keeps_count.1 threeCreated
      (createRun_reachable constArgs 3) 1).2.2,
   C7_delete_removes_but_keeps_count.2.2 initState 9 (by decide)⟩

/-- Claim C8: in every reachable state, `list_events` returns exactly the
event records currently present in the map (a record is listed iff some
key stores it, each live record appears once, deleted records are gone),
its length is the number of live map entries, and that length can be
strictly below `get_event_count` after deletions.  No ascending-ID order
of the output is asserted. -/
theorem C8_list_is_exactly_live_records (s : RegistryState) (h : Reachable s) :
    (∀ e, e ∈ list_events s ↔ ∃ k, read_event s k = some e) ∧
    (list_events s).length = s.events.length ∧
    (list_events s).Nodup ∧
    ∃ t, Reachable t ∧ (list_events t).length < get_event_count t := by
  obtain ⟨hs, hm⟩ := reachable_wf s h
  refine ⟨?_, List.length_map s.events Prod.snd, ?_, ?_⟩
  · intro e
    constructor
    · intro he
      rcases (mem_mapValues e s.events).mp he with ⟨k, hk⟩
      exact ⟨k, mem_mapGet k e s.events hs hk⟩
    · rintro ⟨k, hk⟩
      exact (mem_mapValues e s.events).mpr ⟨k, mapGet_some_mem k e s.events hk⟩
  · rw [list_events, mapValues, List.Nodup, List.pairwise_map]
    refine hs.imp_of_mem ?_
    intro p q hp hq hlt heq
    have h1 : p.2.event_id = p.1 := hm p hp
    have h2 : q.2.event_id = q.1 := hm q hq
    rw [heq] at h1
    omega
  · exact ⟨delete_event threeCreated 1,
      Reachable.delete _ 1 (createRun_reachable constArgs 3), by decide⟩

theorem C8_list_witness :
    (list_events threeCreated).length = threeCreated.events.length ∧
    (list_events threeCreated).Nodup :=
  ⟨(C8_list_is_exactly_live_records threeCreated
      (createRun_reachable constArgs 3)).2.1,
   (C8_list_is_exactly_live_records threeCreated
      (createRun_reachable constArgs 3)).2.2.1⟩

/-- Counterexample to claim C2 as stated: the state reached by 2^32 - 1
consecutive creates is reachable and has counter 2^32 - 1, and one more
successful create drops the counter to 0 — so over all reachable states
the counter does not "never decrease", nor does every successful create
increase it by exactly 1. -/
theorem C2_counterexample_counter_wraps :
    Reachable (createRun constArgs 4294967295) ∧
    get_event_count (createRun constArgs 4294967295) = 4294967295 ∧
    get_event_count (create_event (createRun constArgs 4294967295) "a" "b" 0 0).2 = 0 := by
  refine ⟨createRun_reachable constArgs 4294967295, ?_, ?_⟩
  · rw [get_event_count, createRun_counter, U32MOD]
  · rw [get_event_count, create_event_counter, createRun_counter, U32MOD]

/-- Claim C2, amended for the u32 wrap that 2^32 creates can trigger: in
every state reachable without the counter ever wrapping, every key in the
events map lies between 1 and the counter; each successful create issued
below the u32 maximum increases the counter by exactly 1; and the counter
is unchanged by `update_event` and `delete_event`. -/
theorem C2_keys_bounded_counter_monotone :
    (∀ s, ReachableNoWrap s → ∀ p ∈ s.events, 1 ≤ p.1 ∧ p.1 ≤ get_event_count s) ∧
    (∀ (s : RegistryState) (n d : String) (sd ed : Nat),
      get_event_count s < 4294967295 →
      get_event_count (create_event s n d sd ed).2 = get_event_count s + 1) ∧
    (∀ (s : RegistryState) (id : Nat) (n d : String) (sd ed : Nat) (st : Status),
      get_event_count (update_event s id n d sd ed st) = get_event_count s) ∧
    (∀ (s : RegistryState) (id : Nat),
      get_event_count (delete_event s id) = get_event_count s) := by
  refine ⟨fun s h => reachableNoWrap_bounds s h, ?_, ?_, fun s id => rfl⟩
  · intro s n d sd ed hlt
    show (s.counter + 1) % U32MOD = s.counter + 1
    have : s.counter < 4294967295 := hlt
    rw [U32MOD]
    omega
  · intro s id n d sd ed st
    cases hg : mapGet id s.events with
    | none => simp [update_event, hg]
    | some e => simp [update_event, hg, get_event_count]

theorem C2_bounds_witness :
    (1 ≤ 1 ∧ 1 ≤ get_event_count (create_event initState "a" "b" 0 0).2) ∧
    get_event_count (create_event initState "a" "b" 0 0).2 = get_event_count initState + 1 :=
  ⟨C2_keys_bounded_counter_monotone.1 (create_event initState "a" "b" 0 0).2
      (ReachableNoWrap.create initState "a" "b" 0 0 ReachableNoWrap.init (by decide))
      (1, { event_id := 1, name := "a", description := "b", start_date := 0,
            end_date := 0, status := Status.Active })
      (by decide),
   C2_keys_bounded_counter_monotone.2.1 initState "a" "b" 0 0 (by decide)⟩

/-- Counterexample to claim C3 as stated: with N = 2^32 consecutive
creates, the last call (call number 4294967295 + 1) returns ID 0, not
4294967296, because the u32 counter wraps. -/
theorem C3_counterexample_wrapped_id :
    callId constArgs 4294967295 = 0 ∧ 4294967295 + 1 = 4294967296 := by
  refine ⟨?_, rfl⟩
  rw [callId_eq, U32MOD]

/-- Claim C3, amended for the u32 wrap: starting from the initial state,
for every N up to 2^32 - 1 and every choice of per-call arguments, the N
consecutive `create_event` calls return IDs exactly 1, 2, ..., N in call
order (call number i + 1 returns i + 1). -/
theorem C3_sequential_ids (args : Nat → String × String × Nat × Nat)
    (N : Nat) (hN : N ≤ 4294967295) (i : Nat) (hi : i < N) :
    callId args i = i + 1 := by
  rw [callId_eq, U32MOD]
  omega

theorem C3_sequential_ids_witness :
    callId constArgs 0 = 0 + 1 ∧ callId constArgs 1 = 1 + 1 :=
  ⟨C3_sequential_ids constArgs 2 (by decide) 0 (by decide),
   C3_sequential_ids constArgs 2 (by decide) 1 (by decide)⟩

/-- Claim C9: `create_event` computes the new id as counter + 1 in u32
arithmetic with no overflow guard: the returned id is always
(counter + 1) mod 2^32; at counter = 2^32 - 1 the id wraps to 0 and the
new counter is smaller than the old one (so monotonicity and
never-reusing IDs fail there — the very next create returns 1 again);
for every counter below 2^32 - 1 the returned id is exactly counter + 1. -/
theorem C9_unguarded_u32_increment (s : RegistryState) (n d : String) (sd ed : Nat) :
    (create_event s n d sd ed).1 = (s.counter + 1) % 4294967296 ∧
    (s.counter = 4294967295 →
      (create_event s n d sd ed).1 = 0 ∧
      (create_event s n d sd ed).2.counter < s.counter ∧
      (create_event (create_event s n d sd ed).2 n d sd ed).1 = 1) ∧
    (s.counter < 4294967295 →
      (create_event s n d sd ed).1 = s.counter + 1) := by
  refine ⟨?_, ?_, ?_⟩
  · show (s.counter + 1) % U32MOD = (s.counter + 1) % 4294967296
    rw [U32MOD]
  · intro hc
    refine ⟨?_, ?_, ?_⟩
    · show (s.counter + 1) % U32MOD = 0
      rw [U32MOD]
      omega
    · show (s.counter + 1) % U32MOD < s.counter
      rw [U32MOD]
      omega
    · show (((s.counter + 1) % U32MOD) + 1) % U32MOD = 1
      rw [U32MOD]
      omega
  · intro hc
    show (s.counter + 1) % U32MOD = s.counter + 1
    rw [U32MOD]
    omega

/-- A state whose counter sits at the u32 maximum (create_event is total,
so it may be probed at any state). -/
def maxCounterState : RegistryState :=
  { events := [], counter := 4294967295 }

theorem C9_overflow_witness :
    (create_event maxCounterState "a" "b" 0 0).1 = 0 ∧
    (create_event maxCounterState "a" "b" 0 0).2.counter < maxCounterState.counter ∧
    (create_event (create_event maxCounterState "a" "b" 0 0).2 "a" "b" 0 0).1 = 1 ∧
    (create_event initState "a" "b" 0 0).1 = initState.counter + 1 :=
  ⟨((C9_unguarded_u32_increment maxCounterState "a" "b" 0 0).2.1 (by decide)).1,
   ((C9_unguarded_u32_increment maxCounterState "a" "b" 0 0).2.1 (by decide)).2.1,
   ((C9_unguarded_u32_increment maxCounterState "a" "b" 0 0).2.1 (by decide)).2.2,
   (C9_unguarded_u32_increment initState "a" "b" 0 0).2.2 (by decide)⟩

end EventsContract
